import Mathlib

/-!
Verification development for the `sixdegrees` candidate-matcher application
(`src/sixdegrees.py`).  The Python source is shallowly embedded: pandas
tables become lists of cell lists, Python strings become Lean `String`s,
floats become exact rationals, and calls into external libraries
(`fuzzywuzzy` similarity, `requests` fetching, BeautifulSoup parsing,
pandas date parsing and date printing) become explicit function
parameters.  Fallible operations return `Option` or `Except`.
-/

namespace Sixdegrees

attribute [local semireducible] Rat.add Rat.mul Rat.inv

/-! ## Generic string and list helpers (models of Python primitives) -/

/-- Model of the Python substring test `needle in hay` on character lists:
true iff `needle` occurs contiguously in `hay` (an empty needle always
occurs). -/
def containsSeq (needle : List Char) : List Char → Bool
  | [] => needle.isEmpty
  | c :: rest => needle.isPrefixOf (c :: rest) || containsSeq needle rest

/-- Model of Python `needle in hay` for strings. -/
def pyContains (hay needle : String) : Bool := containsSeq needle.data hay.data

/-- Model of Python `str.lower()`: lowercase every character.  (Python
lowercases full Unicode; `Char.toLower` covers the ASCII range, which
is all the source's keyword comparisons rely on.) -/
def pyLower (s : String) : String := String.mk (s.data.map Char.toLower)

/-- Drop trailing elements satisfying `p` (helper for Python `str.strip`). -/
def rtrimList {α : Type} (p : α → Bool) (l : List α) : List α :=
  (l.reverse.dropWhile p).reverse

/-- Character-list model of Python `str.strip()`: remove leading and
trailing whitespace. -/
def trimChars (l : List Char) : List Char :=
  rtrimList Char.isWhitespace (l.dropWhile Char.isWhitespace)

/-- Model of Python `str.strip()` on strings. -/
def pyStrip (s : String) : String := String.mk (trimChars s.data)

/-- Model of `pandas.DataFrame.drop_duplicates()`: keep the first
occurrence of each element, drop later duplicates. -/
def dropDups {α : Type} [DecidableEq α] : List α → List α
  | [] => []
  | a :: l => a :: dropDups (l.filter (fun b => b ≠ a))
termination_by l => l.length
decreasing_by
  simp only [List.length_cons]
  exact Nat.lt_succ_of_le (List.length_filter_le _ _)

theorem dropWhile_dropWhile {α : Type} (p : α → Bool) (l : List α) :
    (l.dropWhile p).dropWhile p = l.dropWhile p := by
  induction l with
  | nil => rfl
  | cons a l ih =>
    by_cases h : p a
    · simp [List.dropWhile_cons, h, ih]
    · simp [List.dropWhile_cons, h]

theorem exists_prepend_dropWhile {α : Type} (p : α → Bool) (l : List α) :
    ∃ t, t ++ l.dropWhile p = l := by
  induction l with
  | nil => exact ⟨[], rfl⟩
  | cons a l ih =>
    by_cases h : p a
    · obtain ⟨t, ht⟩ := ih
      exact ⟨a :: t, by simp [List.dropWhile_cons, h, ht]⟩
    · exact ⟨[], by simp [List.dropWhile_cons, h]⟩

theorem dropWhile_cons_self_head {α : Type} {p : α → Bool} {l : List α} {a : α} {t : List α}
    (h : l.dropWhile p = a :: t) : p a = false := by
  induction l with
  | nil => simp at h
  | cons b l ih =>
    rw [List.dropWhile_cons] at h
    by_cases hb : p b
    · rw [if_pos hb] at h
      exact ih h
    · rw [if_neg hb] at h
      obtain ⟨rfl, rfl⟩ := List.cons.injEq .. ▸ h
      · simpa using hb

theorem rtrimList_rtrimList {α : Type} (p : α → Bool) (l : List α) :
    rtrimList p (rtrimList p l) = rtrimList p l := by
  simp [rtrimList, dropWhile_dropWhile]

theorem exists_append_rtrimList {α : Type} (p : α → Bool) (l : List α) :
    ∃ t, rtrimList p l ++ t = l := by
  obtain ⟨t, ht⟩ := exists_prepend_dropWhile p l.reverse
  refine ⟨t.reverse, ?_⟩
  have h2 : (t ++ l.reverse.dropWhile p).reverse = l.reverse.reverse := by rw [ht]
  simpa [rtrimList, List.reverse_append] using h2

theorem dropWhile_trimChars (l : List Char) :
    (trimChars l).dropWhile Char.isWhitespace = trimChars l := by
  set ws := Char.isWhitespace with hws
  set A := l.dropWhile ws with hA
  obtain ⟨t, ht⟩ := exists_append_rtrimList ws A
  rw [trimChars, ← hws, ← hA]
  cases hr : rtrimList ws A with
  | nil => simp
  | cons a u =>
    have hAeq : A = a :: (u ++ t) := by rw [← ht, hr]; simp
    have hdrop : l.dropWhile ws = a :: (u ++ t) := by rw [← hA]; exact hAeq
    have hfa : ws a = false := dropWhile_cons_self_head hdrop
    rw [List.dropWhile_cons, if_neg (by simp [hfa])]

theorem trimChars_idem (l : List Char) : trimChars (trimChars l) = trimChars l := by
  conv_lhs => rw [trimChars, dropWhile_trimChars]
  rw [trimChars, rtrimList_rtrimList]

theorem pyStrip_idem (s : String) : pyStrip (pyStrip s) = pyStrip s := by
  simp [pyStrip, trimChars_idem]

theorem mem_dropDups_iff {α : Type} [DecidableEq α] (l : List α) (x : α) :
    x ∈ dropDups l ↔ x ∈ l := by
  induction l using dropDups.induct with
  | case1 => simp [dropDups]
  | case2 a l ih =>
    rw [dropDups]
    by_cases hxa : x = a
    · simp [hxa]
    · simp only [List.mem_cons, hxa, false_or, ih, List.mem_filter]
      constructor
      · exact fun h => h.1
      · exact fun h => ⟨h, by simpa using hxa⟩

theorem nodup_dropDups {α : Type} [DecidableEq α] (l : List α) : (dropDups l).Nodup := by
  induction l using dropDups.induct with
  | case1 => simp [dropDups]
  | case2 a l ih =>
    rw [dropDups]
    refine List.nodup_cons.mpr ⟨?_, ih⟩
    intro hmem
    have := (mem_dropDups_iff _ a).mp hmem
    have := (List.mem_filter.mp this).2
    simp at this

theorem dropDups_eq_self_of_nodup {α : Type} [DecidableEq α] {l : List α}
    (h : l.Nodup) : dropDups l = l := by
  induction l using dropDups.induct with
  | case1 => simp [dropDups]
  | case2 a l ih =>
    obtain ⟨ha, hl⟩ := List.nodup_cons.mp h
    have hfilter : l.filter (fun b => b ≠ a) = l := by
      refine List.filter_eq_self.mpr fun b hb => ?_
      simp only [ne_eq, decide_eq_true_eq]
      exact fun hba => ha (hba ▸ hb)
    rw [hfilter] at ih
    rw [dropDups, hfilter, ih hl]

theorem dropDups_idem {α : Type} [DecidableEq α] (l : List α) :
    dropDups (dropDups l) = dropDups l :=
  dropDups_eq_self_of_nodup (nodup_dropDups l)

theorem count_eq_one_of_nodup_mem {α : Type} [BEq α] [LawfulBEq α] {m : List α} {x : α}
    (hn : m.Nodup) (hm : x ∈ m) : m.count x = 1 := by
  induction m with
  | nil => simp at hm
  | cons a m ih =>
    obtain ⟨ha, hn'⟩ := List.nodup_cons.mp hn
    rw [List.count_cons]
    by_cases hxa : a = x
    · subst hxa
      rw [List.count_eq_zero.mpr ha]
      simp
    · have hxm : x ∈ m := by
        rcases List.mem_cons.mp hm with h | h
        · exact absurd h.symm hxa
        · exact h
      rw [ih hn' hxm]
      simp [hxa]

theorem count_dropDups_eq_one {α : Type} [DecidableEq α] [BEq α] [LawfulBEq α]
    {l : List α} {x : α} (h : x ∈ l) : (dropDups l).count x = 1 :=
  count_eq_one_of_nodup_mem (nodup_dropDups l) ((mem_dropDups_iff l x).mpr h)

/-! ## Job criteria extraction: the seniority classifier

Model of the seniority-extraction loop in `extract_job_criteria`
(src/sixdegrees.py lines 264-276): a fixed, ordered bucket table is
scanned and the first bucket with any keyword occurring (case-insensitive
substring) in the description wins; the default is "Not specified". -/

/-- The `seniority_levels` dict from `extract_job_criteria`, in its
(insertion-ordered) iteration order. -/
def seniorityLevels : List (String × List String) :=
  [("Entry Level", ["entry", "junior", "associate", "trainee"]),
   ("Mid-Level", ["mid", "intermediate", "experienced"]),
   ("Senior", ["senior", "sr", "lead", "principal"]),
   ("Management", ["manager", "director", "head", "vp", "chief", "executive"])]

/-- First-match-wins scan of the bucket table. -/
def findSeniority : List (String × List String) → String → String
  | [], _ => "Not specified"
  | (level, kws) :: rest, jobDesc =>
    if kws.any (fun k => pyContains (pyLower jobDesc) k) then level
    else findSeniority rest jobDesc

/-- Seniority classification of a job-description text. -/
def extractSeniority (jobDesc : String) : String :=
  findSeniority seniorityLevels jobDesc

/-- The fixed option list of the criteria-review seniority selectbox
(src/sixdegrees.py lines 610-612). -/
def seniorityOptions : List String :=
  ["Entry Level", "Mid-Level", "Senior", "Management"]

/-- Job criteria record produced by `extract_job_criteria`. -/
structure Criteria where
  job_title : String
  seniority : String
  company_name : String
  location : String
  industry : String
  years_experience : Nat
deriving DecidableEq

/-- Model of rendering the criteria review form's "Level" selectbox:
`["Entry Level", "Mid-Level", "Senior", "Management"].index(criteria["seniority"])`.
Python `list.index` raises `ValueError` when the value is absent; that
exceptional outcome is modelled as `Except.error`. -/
def renderSeniorityIndex (c : Criteria) : Except String Nat :=
  match seniorityOptions.findIdx? (fun o => o = c.seniority) with
  | some i => Except.ok i
  | none => Except.error "ValueError"

/-! ## Connections ingestion: `clean_csv_data`

Model of `clean_csv_data` (src/sixdegrees.py lines 144-159).  A pandas
cell is a string, a parsed datetime, or a missing value (`NaN`/`NaT`);
a DataFrame is a column-name list plus a list of rows.  The pandas date
parser (`pd.to_datetime(..., errors="coerce")` on a string) and the
string rendering of a timestamp (`astype(str)` on a datetime cell) are
external-library behavior and are passed in as parameters `parseDate`
and `showDate`. -/

/-- A single DataFrame cell. -/
inductive Cell where
  | str (s : String)
  | date (d : Int)
  | na
deriving DecidableEq

/-- A DataFrame: column labels plus rows of cells. -/
structure Table where
  cols : List String
  rows : List (List Cell)
deriving DecidableEq

/-- The canonical column list `expected_columns`. -/
def expectedColumns : List String :=
  ["First Name", "Last Name", "URL", "Email Address", "Company", "Position", "Connected On"]

/-- Columns of `expected_columns` absent from `cols`; the ensure-columns
loop appends them (holding `""`) in this order. -/
def missingCols (cols : List String) : List String :=
  expectedColumns.filter (fun c => ¬ cols.contains c)

/-- Column list after the ensure-columns loop. -/
def ensuredCols (cols : List String) : List String :=
  cols ++ missingCols cols

/-- Row after the ensure-columns loop: each missing column holds `""`. -/
def padRow (cols : List String) (r : List Cell) : List Cell :=
  r ++ (missingCols cols).map (fun _ => Cell.str "")

/-- Model of `df.map(lambda x: x.strip() if isinstance(x, str) else x)`
on one cell. -/
def stripCell : Cell → Cell
  | .str s => .str (pyStrip s)
  | c => c

/-- Model of `pd.to_datetime(col, errors="coerce")` on one cell: strings
go through the (external) date parser, unparseable strings and missing
values become `NaT`, datetimes pass through. -/
def toDatetime (parseDate : String → Option Int) : Cell → Cell
  | .str s =>
    match parseDate s with
    | some d => .date d
    | none => .na
  | .date d => .date d
  | .na => .na

/-- Model of `col.astype(str)` on one cell: pandas renders `NaN` as the
string `"nan"` and a datetime via its (external) string form. -/
def astypeStr (showDate : Int → String) : Cell → Cell
  | .str s => .str s
  | .na => .str "nan"
  | .date d => .str (showDate d)

/-- Model of `.fillna("")` on one cell (a no-op after `astype(str)`,
kept for fidelity with the source's `astype(str).fillna("")`). -/
def fillnaEmpty : Cell → Cell
  | .na => .str ""
  | c => c

/-- The `astype(str).fillna("")` composite applied to Company/Position. -/
def fixStr (showDate : Int → String) (c : Cell) : Cell :=
  fillnaEmpty (astypeStr showDate c)

/-- Cell of the ensured row under column label `c` (the reorder step
`df = df[expected_columns]` reads each canonical column by label). -/
def cellAt (cols : List String) (r : List Cell) (c : String) : Cell :=
  (padRow cols r).getD ((ensuredCols cols).findIdx (fun x => x = c)) (Cell.str "")

/-- One row through `clean_csv_data`: ensure columns, reorder to the
canonical order, strip string cells, parse `Connected On` (index 6),
coerce `Company` (index 4) and `Position` (index 5) to strings. -/
def cleanRow (parseDate : String → Option Int) (showDate : Int → String)
    (cols : List String) (r : List Cell) : List Cell :=
  let r2 := expectedColumns.map (cellAt cols r)
  let r3 := r2.map stripCell
  let r4 := r3.set 6 (toDatetime parseDate (r3.getD 6 Cell.na))
  (r4.set 4 (fixStr showDate (r4.getD 4 Cell.na))).set 5 (fixStr showDate (r4.getD 5 Cell.na))

/-- Model of `clean_csv_data`: normalize every row, then
`drop_duplicates` keeping first occurrences. -/
def cleanCsvData (parseDate : String → Option Int) (showDate : Int → String)
    (t : Table) : Table :=
  ⟨expectedColumns, dropDups (t.rows.map (cleanRow parseDate showDate t.cols))⟩

/-! ## Heuristic column mapping

Model of the third parsing strategy of `extract_linkedin_connections`
(src/sixdegrees.py lines 184-201): identify name/company/position/url
columns by case-insensitive substrings of the column labels, build the
`column_mapping` dict (later duplicate keys overwrite earlier ones, as
in a Python dict literal followed by an assignment), rename, and clean. -/

/-- Predicate for `'name' in col.lower()`. -/
def nameFilterCol (c : String) : Bool := pyContains (pyLower c) "name"

/-- Predicate for `'company' in col.lower()`. -/
def companyFilterCol (c : String) : Bool := pyContains (pyLower c) "company"

/-- Predicate for `any(term in col.lower() for term in ['position', 'title', 'role'])`. -/
def positionFilterCol (c : String) : Bool :=
  ["position", "title", "role"].any (fun t => pyContains (pyLower c) t)

/-- Predicate for `any(term in col.lower() for term in ['url', 'link', 'profile'])`. -/
def urlFilterCol (c : String) : Bool :=
  ["url", "link", "profile"].any (fun t => pyContains (pyLower c) t)

def nameCols (cols : List String) : List String := cols.filter nameFilterCol

def companyCols (cols : List String) : List String := cols.filter companyFilterCol

def positionCols (cols : List String) : List String := cols.filter positionFilterCol

def urlCols (cols : List String) : List String := cols.filter urlFilterCol

/-- Insert a key/value pair into an association list with Python-dict
semantics: overwrite an existing key, else append. -/
def dinsert (m : List (String × String)) (k v : String) : List (String × String) :=
  if m.any (fun p => p.1 = k) then
    m.map (fun p => if p.1 = k then (k, v) else p)
  else m ++ [(k, v)]

/-- The `column_mapping` dict built at src/sixdegrees.py lines 191-198.
Both branches of the source's
`"Last Name" if len(name_cols) > 1 else "Last Name"` are the literal
`"Last Name"`, so the conditional is elided. -/
def columnMapping (cols : List String) : List (String × String) :=
  if urlCols cols ≠ [] then
    dinsert (dinsert (dinsert (dinsert (dinsert [] ((nameCols cols).headD "") "First Name")
      ((nameCols cols).getLastD "") "Last Name") ((companyCols cols).headD "") "Company")
      ((positionCols cols).headD "") "Position") ((urlCols cols).headD "") "URL"
  else
    dinsert (dinsert (dinsert (dinsert [] ((nameCols cols).headD "") "First Name")
      ((nameCols cols).getLastD "") "Last Name") ((companyCols cols).headD "") "Company")
      ((positionCols cols).headD "") "Position"

/-- `df.rename(columns=mapping)` on one column label. -/
def renameCol (m : List (String × String)) (c : String) : String :=
  match m.find? (fun p => p.1 = c) with
  | some p => p.2
  | none => c

/-- The heuristic strategy: require a name, company and position column,
rename to the canonical schema, then clean; otherwise give up. -/
def heuristicRename (parseDate : String → Option Int) (showDate : Int → String)
    (t : Table) : Option Table :=
  if nameCols t.cols ≠ [] ∧ companyCols t.cols ≠ [] ∧ positionCols t.cols ≠ [] then
    some (cleanCsvData parseDate showDate
      ⟨t.cols.map (renameCol (columnMapping t.cols)), t.rows⟩)
  else none

/-! ## Candidate location resolver

Model of `extract_location_from_profile` (src/sixdegrees.py lines
330-409).  The HTTP fetch is a parameter `fetch` (`none` models any
raised network error: timeout, 404 via `raise_for_status`, connection
failure), and the BeautifulSoup-based scrape-clean-validate pipeline
over the fetched page (meta tag, known elements, `ld+json`, suffix
stripping and validation) is a parameter `scrape`.  The session cache
is threaded explicitly; the `lru_cache` wrapper is a second
memoization layer on top of it and is not modelled separately.  Any
failure degrades to the absent value `none` instead of raising. -/

/-- An opaque fetched HTML page. -/
structure Page where
  html : String

/-- The session-state location cache: profile URL to resolved location
or an explicit negative (absent) marker. -/
structure LocCache where
  cache : List (String × Option String)
deriving DecidableEq

/-- Cache lookup, newest entry first (models a Python dict read). -/
def lookupCache (st : LocCache) (url : String) : Option (Option String) :=
  (st.cache.find? (fun p => p.1 = url)).map (fun p => p.2)

/-- One call's outcome: the returned value, the updated cache, and
whether a network request was issued. -/
structure LocOutcome where
  result : Option String
  state : LocCache
  networkCalled : Bool
deriving DecidableEq

/-- Model of the regex search `location=([^&]+)` over the URL: at the
first occurrence of `location=` followed by at least one non-`&`
character, capture the maximal non-`&` run. -/
def locParamSearch : List Char → Option (List Char)
  | [] => none
  | ch :: rest =>
    if "location=".data.isPrefixOf (ch :: rest) then
      let cap := ((ch :: rest).drop 9).takeWhile (fun c => c ≠ '&')
      if cap = [] then locParamSearch rest else some cap
    else locParamSearch rest

/-- The URL-parameter fallback: captured text with `+` replaced by a space. -/
def urlParamLocation (url : String) : Option String :=
  (locParamSearch url.data).map
    (fun l => String.mk (l.map (fun ch => if ch = '+' then ' ' else ch)))

/-- Model of `extract_location_from_profile`. -/
def extractLocationFromProfile (fetch : String → Option Page)
    (scrape : Page → Option String) (st : LocCache) (url : String) : LocOutcome :=
  match lookupCache st url with
  | some v => ⟨v, st, false⟩
  | none =>
    if url = "" ∨ pyContains (pyLower url) "linkedin.com/in/" = false then
      ⟨none, st, false⟩
    else
      match fetch url with
      | none => ⟨none, ⟨(url, none) :: st.cache⟩, true⟩
      | some page =>
        match scrape page with
        | some loc => ⟨some loc, ⟨(url, some loc) :: st.cache⟩, true⟩
        | none =>
          match urlParamLocation url with
          | some loc => ⟨some loc, ⟨(url, some loc) :: st.cache⟩, true⟩
          | none => ⟨none, ⟨(url, none) :: st.cache⟩, true⟩

/-! ## Candidate scoring engine

Model of `match_candidates` and its inner `score_candidate`
(src/sixdegrees.py lines 411-456).  The fuzzywuzzy
`fuzz.token_sort_ratio` similarity is an external library and becomes a
parameter `sim` (an integer percentage, constrained to `[0, 100]` in
the theorems that need it); the cached location resolver becomes a
parameter `locRes`.  Python floats are modelled as exact rationals.
The presentational tail of `match_candidates` (column selection and
wrapping the URL in an anchor tag) carries each surviving contact and
its score unchanged, so the model returns contact/score pairs. -/

/-- One contact row as consumed by the scoring engine (the `str(...)`
coercions in the source make every consulted field a string). -/
structure CRow where
  first_name : String
  last_name : String
  position : String
  company : String
  url : String
deriving DecidableEq

/-- Title sub-term: `fuzz.token_sort_ratio(title, position) * 0.5`. -/
def titleTerm (sim : String → String → ℚ) (c : Criteria) (row : CRow) : ℚ :=
  sim (pyLower c.job_title) (pyLower row.position) * (1 / 2)

/-- Seniority sub-term: `+20` when the seniority phrase occurs in the
position. -/
def seniorityTerm (c : Criteria) (row : CRow) : ℚ :=
  if pyContains (pyLower row.position) (pyLower c.seniority) then 20 else 0

/-- Location sub-term: `similarity * 0.15` when a location was resolved
(and is truthy) and the job's location is specified. -/
def locationTerm (sim : String → String → ℚ) (locRes : String → Option String)
    (c : Criteria) (row : CRow) : ℚ :=
  match locRes row.url with
  | some cl =>
    if cl ≠ "" ∧ (pyLower c.location) ≠ "not specified" then
      sim (pyLower c.location) (pyLower cl) * (15 / 100)
    else 0
  | none => 0

/-- Industry sub-term: `similarity * 0.15` against the contact's company
name when the job's industry is specified. -/
def industryTerm (sim : String → String → ℚ) (c : Criteria) (row : CRow) : ℚ :=
  if (pyLower c.industry) ≠ "not specified" then
    sim (pyLower c.industry) (pyLower row.company) * (15 / 100)
  else 0

/-- Model of Python `round(x, 2)` as `floor(x * 100 + 1/2) / 100`
(round half up; Python rounds half to even, which differs only on
exact `.005` boundaries that no claim exercises). -/
def roundTo2 (q : ℚ) : ℚ := ((Rat.floor (q * 100 + 1 / 2) : ℤ) : ℚ) / 100

/-- Bridge from the executable `Rat.floor` to the `⌊⌋` notation. -/
theorem ratFloor_eq_floor (q : ℚ) : Rat.floor q = ⌊q⌋ :=
  (Rat.floor_def' q).trans Rat.floor_def.symm

/-- Model of `score_candidate`: current employees of the hiring company
score 0; otherwise the rounded weighted sum. -/
def scoreCandidate (sim : String → String → ℚ) (locRes : String → Option String)
    (c : Criteria) (row : CRow) : ℚ :=
  if (pyLower row.company) = (pyLower c.company_name) then 0
  else
    roundTo2 (titleTerm sim c row + seniorityTerm c row +
      locationTerm sim locRes c row + industryTerm sim c row)

/-- Descending order on scored contacts (`sort_values(ascending=False)`). -/
def scoreGe (a b : CRow × ℚ) : Prop := b.2 ≤ a.2

instance : DecidableRel scoreGe := fun a b => inferInstanceAs (Decidable (b.2 ≤ a.2))

instance : IsTotal (CRow × ℚ) scoreGe := ⟨fun a b => le_total b.2 a.2⟩

instance : IsTrans (CRow × ℚ) scoreGe := ⟨fun _ _ _ h₁ h₂ => le_trans h₂ h₁⟩

/-- Model of `match_candidates`: score every row, keep scores strictly
above the minimum threshold 20, sort descending, return the top 5. -/
def matchCandidates (sim : String → String → ℚ) (locRes : String → Option String)
    (c : Criteria) (rows : List CRow) : List (CRow × ℚ) :=
  if rows = [] then []
  else
    (List.insertionSort scoreGe
      ((rows.map (fun r => (r, scoreCandidate sim locRes c r))).filter
        (fun p => 20 < p.2))).take 5

/-! ## Helper lemmas about the scoring engine -/

theorem titleTerm_bounds {sim : String → String → ℚ}
    (c : Criteria) (row : CRow) (hsim : ∀ a b, 0 ≤ sim a b ∧ sim a b ≤ 100) :
    0 ≤ titleTerm sim c row ∧ titleTerm sim c row ≤ 50 := by
  obtain ⟨h0, h1⟩ := hsim (pyLower c.job_title) (pyLower row.position)
  unfold titleTerm
  constructor
  · exact mul_nonneg h0 (by norm_num)
  · calc sim (pyLower c.job_title) (pyLower row.position) * (1 / 2)
        ≤ 100 * (1 / 2) := mul_le_mul_of_nonneg_right h1 (by norm_num)
      _ = 50 := by norm_num

theorem seniorityTerm_bounds (c : Criteria) (row : CRow) :
    0 ≤ seniorityTerm c row ∧ seniorityTerm c row ≤ 20 := by
  unfold seniorityTerm
  split <;> norm_num

theorem locationTerm_bounds {sim : String → String → ℚ} (locRes : String → Option String)
    (c : Criteria) (row : CRow) (hsim : ∀ a b, 0 ≤ sim a b ∧ sim a b ≤ 100) :
    0 ≤ locationTerm sim locRes c row ∧ locationTerm sim locRes c row ≤ 15 := by
  cases h : locRes row.url with
  | none => simp [locationTerm, h]
  | some cl =>
    simp only [locationTerm, h]
    split
    · obtain ⟨h0, h1⟩ := hsim (pyLower c.location) (pyLower cl)
      constructor
      · exact mul_nonneg h0 (by norm_num)
      · calc sim (pyLower c.location) (pyLower cl) * (15 / 100)
            ≤ 100 * (15 / 100) := mul_le_mul_of_nonneg_right h1 (by norm_num)
          _ = 15 := by norm_num
    · norm_num

theorem industryTerm_bounds {sim : String → String → ℚ}
    (c : Criteria) (row : CRow) (hsim : ∀ a b, 0 ≤ sim a b ∧ sim a b ≤ 100) :
    0 ≤ industryTerm sim c row ∧ industryTerm sim c row ≤ 15 := by
  unfold industryTerm
  split
  · obtain ⟨h0, h1⟩ := hsim (pyLower c.industry) (pyLower row.company)
    constructor
    · exact mul_nonneg h0 (by norm_num)
    · calc sim (pyLower c.industry) (pyLower row.company) * (15 / 100)
          ≤ 100 * (15 / 100) := mul_le_mul_of_nonneg_right h1 (by norm_num)
        _ = 15 := by norm_num
  · norm_num

theorem roundTo2_bounds {q : ℚ} (h0 : 0 ≤ q) (h1 : q ≤ 100) :
    0 ≤ roundTo2 q ∧ roundTo2 q ≤ 100 := by
  have lower : (0 : ℤ) ≤ ⌊q * 100 + 1 / 2⌋ :=
    Int.le_floor.mpr (by push_cast; linarith)
  have upper : ⌊q * 100 + 1 / 2⌋ ≤ 10000 := by
    have hlt : ⌊q * 100 + 1 / 2⌋ < 10001 := Int.floor_lt.mpr (by push_cast; linarith)
    omega
  unfold roundTo2
  rw [ratFloor_eq_floor]
  constructor
  · exact div_nonneg (by exact_mod_cast lower) (by norm_num)
  · rw [div_le_iff₀ (by norm_num)]
    calc ((⌊q * 100 + 1 / 2⌋ : ℤ) : ℚ) ≤ ((10000 : ℤ) : ℚ) := by exact_mod_cast upper
      _ = 100 * 100 := by norm_num

/-- Any element of the matcher's output is a row of the input table,
carries that row's score, and that score is strictly above 20. -/
theorem mem_matchCandidates {sim : String → String → ℚ} {locRes : String → Option String}
    {c : Criteria} {rows : List CRow} {p : CRow × ℚ}
    (h : p ∈ matchCandidates sim locRes c rows) :
    p.1 ∈ rows ∧ p.2 = scoreCandidate sim locRes c p.1 ∧ 20 < p.2 := by
  unfold matchCandidates at h
  by_cases hr : rows = []
  · simp [hr] at h
  · rw [if_neg hr] at h
    have h1 := (List.take_sublist 5 _).subset h
    rw [List.mem_insertionSort] at h1
    obtain ⟨h2, h3⟩ := List.mem_filter.mp h1
    obtain ⟨r, hmem, heq⟩ := List.mem_map.mp h2
    subst heq
    exact ⟨hmem, rfl, by simpa using h3⟩

/-! ## Claim C1 -/

/-- C1: for every contact row and criteria record, if the contact's
Company equals the criteria's company_name case-insensitively, then
`score_candidate` assigns score exactly 0 (whatever the other fields
and the external similarity/location functions are), and the contact
never appears in `match_candidates`' result set. -/
theorem c1_company_exclusion (sim : String → String → ℚ) (locRes : String → Option String)
    (c : Criteria) (row : CRow) (rows : List CRow)
    (h : (pyLower row.company) = (pyLower c.company_name)) :
    scoreCandidate sim locRes c row = 0 ∧
      ∀ p ∈ matchCandidates sim locRes c rows, p.1 ≠ row := by
  have h0 : scoreCandidate sim locRes c row = 0 := by
    rw [scoreCandidate, if_pos h]
  refine ⟨h0, fun p hp hne => ?_⟩
  obtain ⟨_, h2, h3⟩ := mem_matchCandidates hp
  rw [hne, h0] at h2
  rw [h2] at h3
  norm_num at h3

/-- Fixture: a constant external similarity function. -/
def wSim50 : String → String → ℚ := fun _ _ => 50

/-- Fixture: a location resolver that never finds a location. -/
def wLocNone : String → Option String := fun _ => none

/-- Fixture: criteria whose hiring company is ACME. -/
def wCritAcme : Criteria := ⟨"Engineer", "zz", "ACME", "Not specified", "Not specified", 0⟩

/-- Fixture: a contact currently employed at Acme. -/
def wRowAcme : CRow := ⟨"Jane", "Doe", "Senior Engineer", "Acme", "u"⟩

/-- Witness for C1 at a concrete employee of the hiring company. -/
theorem c1_company_exclusion_witness :
    scoreCandidate wSim50 wLocNone wCritAcme wRowAcme = 0 ∧
      ∀ p ∈ matchCandidates wSim50 wLocNone wCritAcme [wRowAcme], p.1 ≠ wRowAcme :=
  c1_company_exclusion wSim50 wLocNone wCritAcme wRowAcme [wRowAcme] (by decide)

/-! ## Claim C2 -/

/-- C2: for every contact row and criteria record (and any similarity
function valued in [0, 100], as fuzzywuzzy ratios are), the computed
match_score lies between 0 and 100.14 inclusive; the four sub-terms are
independently capped at 50, 20, 15 and 15, and no non-excluded contact
can exceed their sum 100. -/
theorem c2_score_bounds (sim : String → String → ℚ) (locRes : String → Option String)
    (c : Criteria) (row : CRow)
    (hsim : ∀ a b, 0 ≤ sim a b ∧ sim a b ≤ 100) :
    0 ≤ scoreCandidate sim locRes c row ∧ scoreCandidate sim locRes c row ≤ 100 ∧
      scoreCandidate sim locRes c row ≤ 10014 / 100 := by
  have hsum : 0 ≤ titleTerm sim c row + seniorityTerm c row +
      locationTerm sim locRes c row + industryTerm sim c row ∧
      titleTerm sim c row + seniorityTerm c row +
      locationTerm sim locRes c row + industryTerm sim c row ≤ 100 := by
    obtain ⟨t0, t1⟩ := titleTerm_bounds c row hsim
    obtain ⟨s0, s1⟩ := seniorityTerm_bounds c row
    obtain ⟨l0, l1⟩ := locationTerm_bounds locRes c row hsim
    obtain ⟨i0, i1⟩ := industryTerm_bounds c row hsim
    constructor <;> linarith
  unfold scoreCandidate
  split
  · norm_num
  · obtain ⟨b0, b1⟩ := roundTo2_bounds hsum.1 hsum.2
    exact ⟨b0, b1, by linarith⟩

/-- Witness for C2 at a concrete bounded similarity function. -/
theorem c2_score_bounds_witness :
    (∀ a b, 0 ≤ wSim50 a b ∧ wSim50 a b ≤ 100) ∧
      (0 ≤ scoreCandidate wSim50 wLocNone wCritAcme wRowAcme ∧
        scoreCandidate wSim50 wLocNone wCritAcme wRowAcme ≤ 100 ∧
        scoreCandidate wSim50 wLocNone wCritAcme wRowAcme ≤ 10014 / 100) :=
  ⟨fun _ _ => ⟨by norm_num [wSim50], by norm_num [wSim50]⟩,
    c2_score_bounds wSim50 wLocNone wCritAcme wRowAcme
      (fun _ _ => ⟨by norm_num [wSim50], by norm_num [wSim50]⟩)⟩

/-! ## Claim C5 -/

/-- Scanning the bucket table yields the default when no keyword of any
bucket occurs in the description. -/
theorem findSeniority_eq_default (lvs : List (String × List String)) (jd : String)
    (h : ∀ lv ∈ lvs, (lv.2.any (fun k => pyContains (pyLower jd) k)) = false) :
    findSeniority lvs jd = "Not specified" := by
  induction lvs with
  | nil => rfl
  | cons lv rest ih =>
    obtain ⟨level, kws⟩ := lv
    rw [findSeniority, if_neg (by simp [h (level, kws) (List.mem_cons_self _ _)])]
    exact ih fun lv hlv => h lv (List.mem_cons_of_mem _ hlv)

/-- C5: a job description containing (case-insensitively) both "junior"
and "senior" is classified "Entry Level": the buckets are checked in
the fixed order Entry Level, Mid-Level, Senior, Management, the first
bucket with a matching keyword wins, and with no match at all the
result is "Not specified". -/
theorem c5_seniority_first_match :
    (∀ jd : String, pyContains (pyLower jd) "junior" = true →
      pyContains (pyLower jd) "senior" = true →
      extractSeniority jd = "Entry Level") ∧
    (∀ jd : String,
      (∀ lv ∈ seniorityLevels, (lv.2.any (fun k => pyContains (pyLower jd) k)) = false) →
      extractSeniority jd = "Not specified") := by
  constructor
  · intro jd hj _
    simp [extractSeniority, seniorityLevels, findSeniority, hj]
  · intro jd h
    exact findSeniority_eq_default seniorityLevels jd h

/-- Witness for C5 on concrete description texts. -/
theorem c5_seniority_first_match_witness :
    extractSeniority "Hiring junior and senior engineers" = "Entry Level" ∧
      extractSeniority "We bake bread." = "Not specified" :=
  ⟨c5_seniority_first_match.1 "Hiring junior and senior engineers" (by decide) (by decide),
    c5_seniority_first_match.2 "We bake bread." (by decide)⟩

/-! ## Claim C10 -/

/-- C10: "Not specified" is the extractor's seniority default whenever
no bucket keyword matches, yet rendering the criteria review form's
Level selectbox performs a `list.index` lookup in the four-option list,
which raises (modelled as `Except.error`) for any criteria whose
seniority is "Not specified" — such a record cannot be displayed for
editing. -/
theorem c10_render_not_specified_fails :
    (∀ jd : String,
      (∀ lv ∈ seniorityLevels, (lv.2.any (fun k => pyContains (pyLower jd) k)) = false) →
      extractSeniority jd = "Not specified") ∧
    (∀ c : Criteria, c.seniority = "Not specified" →
      renderSeniorityIndex c = Except.error "ValueError") := by
  refine ⟨fun jd h => findSeniority_eq_default seniorityLevels jd h, fun c h => ?_⟩
  unfold renderSeniorityIndex
  rw [h]
  rfl

/-- Witness for C10: a concrete keyword-free description and the
criteria record it induces. -/
theorem c10_render_not_specified_fails_witness :
    extractSeniority "We bake bread daily." = "Not specified" ∧
      renderSeniorityIndex ⟨"Baker", "Not specified", "B Corp", "Lyon", "Food", 0⟩ =
        Except.error "ValueError" :=
  ⟨c10_render_not_specified_fails.1 "We bake bread daily." (by decide),
    c10_render_not_specified_fails.2 ⟨"Baker", "Not specified", "B Corp", "Lyon", "Food", 0⟩ rfl⟩

/-! ## Claim C8 -/

/-- C8: for a profile URL that looks like a profile, is not yet cached,
and whose fetch fails (any raised network error), the resolver returns
the explicit absent value instead of raising, records a network call,
caches the negative result, and a second call with the same URL
returns absent from the cache without issuing another network
request. -/
theorem c8_failed_fetch_cached (fetch : String → Option Page) (scrape : Page → Option String)
    (st : LocCache) (url : String)
    (hc : lookupCache st url = none)
    (hne : ¬ url = "")
    (hlk : pyContains (pyLower url) "linkedin.com/in/" = true)
    (hf : fetch url = none) :
    (extractLocationFromProfile fetch scrape st url).result = none ∧
      (extractLocationFromProfile fetch scrape st url).networkCalled = true ∧
      lookupCache (extractLocationFromProfile fetch scrape st url).state url = some none ∧
      extractLocationFromProfile fetch scrape
          (extractLocationFromProfile fetch scrape st url).state url =
        ⟨none, (extractLocationFromProfile fetch scrape st url).state, false⟩ := by
  have hout : extractLocationFromProfile fetch scrape st url =
      ⟨none, ⟨(url, none) :: st.cache⟩, true⟩ := by
    rw [extractLocationFromProfile, hc]
    rw [if_neg (by simp [hne, hlk]), hf]
  have hcache2 : lookupCache (⟨(url, none) :: st.cache⟩ : LocCache) url = some none := by
    simp [lookupCache, List.find?_cons]
  refine ⟨by rw [hout], by rw [hout], by rw [hout]; exact hcache2, ?_⟩
  rw [hout]
  rw [extractLocationFromProfile, hcache2]

/-- Witness for C8 at a concrete profile URL with a failing fetch. -/
theorem c8_failed_fetch_cached_witness :
    (extractLocationFromProfile (fun _ => none) (fun _ => none) ⟨[]⟩
        "https://linkedin.com/in/jdoe").result = none ∧
      (extractLocationFromProfile (fun _ => none) (fun _ => none) ⟨[]⟩
          "https://linkedin.com/in/jdoe").networkCalled = true ∧
      lookupCache (extractLocationFromProfile (fun _ => none) (fun _ => none) ⟨[]⟩
          "https://linkedin.com/in/jdoe").state "https://linkedin.com/in/jdoe" = some none ∧
      extractLocationFromProfile (fun _ => none) (fun _ => none)
          ((extractLocationFromProfile (fun _ => none) (fun _ => none) ⟨[]⟩
            "https://linkedin.com/in/jdoe").state) "https://linkedin.com/in/jdoe" =
        ⟨none, (extractLocationFromProfile (fun _ => none) (fun _ => none) ⟨[]⟩
          "https://linkedin.com/in/jdoe").state, false⟩ :=
  c8_failed_fetch_cached (fun _ => none) (fun _ => none) ⟨[]⟩ "https://linkedin.com/in/jdoe"
    rfl (by decide) (by decide) rfl

/-! ## Claim C3 -/

/-- C3: on a contact table with at least 6 candidates scoring above the
minimum threshold, with pairwise-distinct scores among them, the
matcher's output is sorted strictly descending by match_score and
contains at most 5 rows. -/
theorem c3_topn_sorted (sim : String → String → ℚ) (locRes : String → Option String)
    (c : Criteria) (rows : List CRow)
    (h6 : 6 ≤ (rows.filter (fun r => 20 < scoreCandidate sim locRes c r)).length)
    (hnd : ((rows.filter (fun r => 20 < scoreCandidate sim locRes c r)).map
      (scoreCandidate sim locRes c)).Nodup) :
    (matchCandidates sim locRes c rows).length ≤ 5 ∧
      (matchCandidates sim locRes c rows).Pairwise (fun p q => q.2 < p.2) := by
  have hrows : rows ≠ [] := by
    intro h
    rw [h] at h6
    simp at h6
  unfold matchCandidates
  rw [if_neg hrows]
  refine ⟨List.length_take_le 5 _, ?_⟩
  set f : CRow → CRow × ℚ := fun r => (r, scoreCandidate sim locRes c r) with hf
  set filtered := (rows.map f).filter (fun p => 20 < p.2) with hfil
  set sorted := List.insertionSort scoreGe filtered with hsortdef
  have hperm : sorted.Perm filtered := List.perm_insertionSort scoreGe filtered
  have hsorted : sorted.Pairwise scoreGe := List.sorted_insertionSort scoreGe filtered
  have hfm : filtered = (rows.filter (fun r => 20 < scoreCandidate sim locRes c r)).map f := by
    rw [hfil, List.filter_map]
    rfl
  have hsnd : (sorted.map Prod.snd).Nodup := by
    refine ((hperm.map Prod.snd).nodup_iff).mpr ?_
    rw [hfm, List.map_map]
    exact hnd
  have hne : sorted.Pairwise (fun p q : CRow × ℚ => p.2 ≠ q.2) := by
    rw [List.Nodup, List.pairwise_map] at hsnd
    exact hsnd
  have hstrict : sorted.Pairwise (fun p q : CRow × ℚ => q.2 < p.2) :=
    (hsorted.and hne).imp (fun h => lt_of_le_of_ne h.1 (Ne.symm h.2))
  exact hstrict.sublist (List.take_sublist 5 sorted)

/-- Fixture: a similarity function giving six distinct passing scores
and nothing else. -/
def c3Sim : String → String → ℚ := fun _ p =>
  if p = "a1" then 90 else if p = "a2" then 80 else if p = "a3" then 70
  else if p = "a4" then 60 else if p = "a5" then 50 else if p = "a6" then 45 else 0

/-- Fixture: six contacts with pairwise-distinct scores above 20. -/
def c3Rows : List CRow :=
  [⟨"r1", "L", "A1", "Org", "u"⟩, ⟨"r2", "L", "A2", "Org", "u"⟩,
   ⟨"r3", "L", "A3", "Org", "u"⟩, ⟨"r4", "L", "A4", "Org", "u"⟩,
   ⟨"r5", "L", "A5", "Org", "u"⟩, ⟨"r6", "L", "A6", "Org", "u"⟩]

/-- Witness for C3 on a concrete six-candidate table. -/
theorem c3_topn_sorted_witness :
    6 ≤ (c3Rows.filter (fun r => 20 < scoreCandidate c3Sim wLocNone wCritAcme r)).length ∧
      ((matchCandidates c3Sim wLocNone wCritAcme c3Rows).length ≤ 5 ∧
        (matchCandidates c3Sim wLocNone wCritAcme c3Rows).Pairwise (fun p q => q.2 < p.2)) :=
  ⟨by decide, c3_topn_sorted c3Sim wLocNone wCritAcme c3Rows (by decide) (by decide)⟩

/-! ## Claim C4 -/

/-- C4 (amended): a contact whose computed raw score is 15 never
appears in the result set (the threshold filter keeps only scores
strictly above 20); a contact whose computed raw score is 25 survives
the threshold filter and appears in the result set provided at most 5
rows of the table (itself included) score at least 25 — with more such
rows the top-5 truncation can drop it. -/
theorem c4_threshold_amended (sim : String → String → ℚ) (locRes : String → Option String)
    (c : Criteria) :
    (∀ (row : CRow) (rows : List CRow),
        scoreCandidate sim locRes c row = 15 →
        ∀ p ∈ matchCandidates sim locRes c rows, p.1 ≠ row) ∧
    (∀ (row : CRow) (rows : List CRow),
        scoreCandidate sim locRes c row = 25 →
        row ∈ rows →
        (rows.filter (fun r => 25 ≤ scoreCandidate sim locRes c r)).length ≤ 5 →
        ∃ p ∈ matchCandidates sim locRes c rows, p.1 = row) := by
  constructor
  · intro row rows h15 p hp hpr
    obtain ⟨-, h2, h3⟩ := mem_matchCandidates hp
    rw [hpr, h15] at h2
    rw [h2] at h3
    norm_num at h3
  · intro row rows h25 hmem hcnt
    have hrows : rows ≠ [] := List.ne_nil_of_mem hmem
    unfold matchCandidates
    rw [if_neg hrows]
    set f : CRow → CRow × ℚ := fun r => (r, scoreCandidate sim locRes c r) with hf
    set filtered := (rows.map f).filter (fun p => 20 < p.2) with hfil
    set sorted := List.insertionSort scoreGe filtered with hsortdef
    have hfr2 : (f row).2 = 25 := h25
    have hp0 : f row ∈ filtered := by
      rw [hfil]
      refine List.mem_filter.mpr ⟨List.mem_map.mpr ⟨row, hmem, rfl⟩, ?_⟩
      rw [hfr2]
      norm_num
    have hp0s : f row ∈ sorted := by
      rw [hsortdef, List.mem_insertionSort]
      exact hp0
    obtain ⟨l₁, l₂, hdecomp⟩ := List.append_of_mem hp0s
    have hpair : sorted.Pairwise scoreGe := List.sorted_insertionSort scoreGe filtered
    have hl₁ : ∀ q ∈ l₁, (25 : ℚ) ≤ q.2 := by
      rw [hdecomp] at hpair
      have hx := (List.pairwise_append.mp hpair).2.2
      intro q hq
      have h' := hx q hq (f row) (List.mem_cons_self _ _)
      rw [scoreGe, hfr2] at h'
      exact h'
    have hexpand : sorted.filter (fun q => 25 ≤ q.2) =
        l₁ ++ f row :: l₂.filter (fun q => 25 ≤ q.2) := by
      rw [hdecomp, List.filter_append, List.filter_cons, if_pos (by rw [hfr2]; norm_num)]
      congr 1
      exact List.filter_eq_self.mpr (fun q hq => by simpa using hl₁ q hq)
    have hfiltlen : (sorted.filter (fun q => 25 ≤ q.2)).length =
        (filtered.filter (fun q => 25 ≤ q.2)).length :=
      ((List.perm_insertionSort scoreGe filtered).filter _).length_eq
    have hfillen : (filtered.filter (fun q => 25 ≤ q.2)).length =
        (rows.filter (fun r => 25 ≤ scoreCandidate sim locRes c r)).length := by
      rw [hfil, List.filter_filter, List.filter_map, List.length_map]
      have hcong : ∀ r ∈ rows,
          ((fun q : CRow × ℚ => decide (25 ≤ q.2) && decide (20 < q.2)) ∘ f) r =
            decide (25 ≤ scoreCandidate sim locRes c r) := by
        intro r _
        by_cases h : (25 : ℚ) ≤ scoreCandidate sim locRes c r
        · have h20 : (20 : ℚ) < scoreCandidate sim locRes c r := by linarith
          simp [Function.comp, hf, h, h20]
        · simp [Function.comp, hf, h]
      rw [List.filter_congr hcong]
    have hl₁len : l₁.length ≤ 4 := by
      have hge : l₁.length + 1 ≤ (sorted.filter (fun q => 25 ≤ q.2)).length := by
        rw [hexpand]
        simp only [List.length_append, List.length_cons]
        omega
      rw [hfiltlen, hfillen] at hge
      omega
    refine ⟨f row, ?_, rfl⟩
    rw [hdecomp, List.take_append_eq_append_take,
      List.take_of_length_le (by omega : l₁.length ≤ 5)]
    obtain ⟨k, hk⟩ : ∃ k, 5 - l₁.length = k + 1 := ⟨4 - l₁.length, by omega⟩
    rw [hk, List.take_succ_cons]
    exact List.mem_append_right _ (List.mem_cons_self _ _)

/-- Fixture: similarity values engineering scores 30, 25 and 15. -/
def cexSim : String → String → ℚ := fun _ p =>
  if p = "winner" then 60 else if p = "runner" then 50 else if p = "mid" then 30 else 0

/-- Fixture: criteria that exclude nobody and enable only the title term. -/
def cexCrit : Criteria := ⟨"X", "zz", "HiringCo", "Not specified", "Not specified", 0⟩

/-- Fixture: a contact whose computed raw score is 25. -/
def cexRow25 : CRow := ⟨"g", "L", "Runner", "Org", "u"⟩

/-- Fixture: a contact whose computed raw score is 15. -/
def cexRow15 : CRow := ⟨"h", "L", "Mid", "Org", "u"⟩

/-- Fixture: six score-30 contacts crowding out the score-25 contact. -/
def cexRows : List CRow :=
  [⟨"a", "L", "Winner", "Org", "u"⟩, ⟨"b", "L", "Winner", "Org", "u"⟩,
   ⟨"c", "L", "Winner", "Org", "u"⟩, ⟨"d", "L", "Winner", "Org", "u"⟩,
   ⟨"e", "L", "Winner", "Org", "u"⟩, ⟨"f", "L", "Winner", "Org", "u"⟩,
   ⟨"g", "L", "Runner", "Org", "u"⟩]

/-- Counterexample to C4 as stated: this contact's computed raw score
is 25 and it belongs to the table, yet it appears nowhere in the
result set, because six other contacts score 30 and the matcher keeps
only the top 5. -/
theorem c4_counterexample :
    scoreCandidate cexSim wLocNone cexCrit cexRow25 = 25 ∧
      cexRow25 ∈ cexRows ∧
      ∀ p ∈ matchCandidates cexSim wLocNone cexCrit cexRows, p.1 ≠ cexRow25 := by
  decide

/-- Witness for the amended C4 on a small concrete table. -/
theorem c4_threshold_amended_witness :
    (∀ p ∈ matchCandidates cexSim wLocNone cexCrit [cexRow15, cexRow25], p.1 ≠ cexRow15) ∧
      ∃ p ∈ matchCandidates cexSim wLocNone cexCrit [cexRow15, cexRow25], p.1 = cexRow25 :=
  ⟨(c4_threshold_amended cexSim wLocNone cexCrit).1 cexRow15 [cexRow15, cexRow25] (by decide),
    (c4_threshold_amended cexSim wLocNone cexCrit).2 cexRow25 [cexRow15, cexRow25]
      (by decide) (by decide) (by decide)⟩

/-! ## Helper lemmas about `clean_csv_data` -/

theorem stripCell_idem (c : Cell) : stripCell (stripCell c) = stripCell c := by
  cases c <;> simp [stripCell, pyStrip_idem]

/-- The `Company`/`Position` pipeline stabilizes after one cleaning
pass, provided the external date renderer emits trimmed strings (as
pandas' timestamp printing does). -/
theorem fixStr_cycle (ds : Int → String) (hds : ∀ d, pyStrip (ds d) = ds d) (x : Cell) :
    fixStr ds (stripCell (fixStr ds (stripCell x))) = fixStr ds (stripCell x) := by
  cases x with
  | str s => simp [stripCell, fixStr, astypeStr, fillnaEmpty, pyStrip_idem]
  | na =>
    have h : pyStrip "nan" = "nan" := by decide
    simp [stripCell, fixStr, astypeStr, fillnaEmpty, h]
  | date d => simp [stripCell, fixStr, astypeStr, fillnaEmpty, hds d]

/-- The `Connected On` pipeline stabilizes after one cleaning pass. -/
theorem toDatetime_cycle (pd : String → Option Int) (x : Cell) :
    toDatetime pd (stripCell (toDatetime pd (stripCell x))) = toDatetime pd (stripCell x) := by
  cases x with
  | str s =>
    cases h : pd (pyStrip s) with
    | some d => simp [stripCell, toDatetime, h]
    | none => simp [stripCell, toDatetime, h]
  | date d => simp [stripCell, toDatetime]
  | na => simp [stripCell, toDatetime]

/-- Normal form of a cleaned row: the seven canonical cells. -/
theorem cleanRow_eq (pd : String → Option Int) (ds : Int → String)
    (cols : List String) (r : List Cell) :
    cleanRow pd ds cols r =
      [stripCell (cellAt cols r "First Name"), stripCell (cellAt cols r "Last Name"),
       stripCell (cellAt cols r "URL"), stripCell (cellAt cols r "Email Address"),
       fixStr ds (stripCell (cellAt cols r "Company")),
       fixStr ds (stripCell (cellAt cols r "Position")),
       toDatetime pd (stripCell (cellAt cols r "Connected On"))] := rfl

/-- Cleaning a row that already carries the canonical seven-column
shape only reprocesses each cell in place. -/
theorem cleanRow_expected_seven (pd : String → Option Int) (ds : Int → String)
    (c0 c1 c2 c3 c4 c5 c6 : Cell) :
    cleanRow pd ds expectedColumns [c0, c1, c2, c3, c4, c5, c6] =
      [stripCell c0, stripCell c1, stripCell c2, stripCell c3,
       fixStr ds (stripCell c4), fixStr ds (stripCell c5),
       toDatetime pd (stripCell c6)] := rfl

/-- One row is a fixed point of cleaning after the first pass. -/
theorem cleanRow_idem (pd : String → Option Int) (ds : Int → String)
    (hds : ∀ d, pyStrip (ds d) = ds d) (cols : List String) (r : List Cell) :
    cleanRow pd ds expectedColumns (cleanRow pd ds cols r) = cleanRow pd ds cols r := by
  rw [cleanRow_eq pd ds cols r, cleanRow_expected_seven]
  simp only [stripCell_idem, fixStr_cycle ds hds, toDatetime_cycle]

/-! ## Claim C6 -/

/-- C6: connections-ingestion normalization is idempotent — applying
`clean_csv_data` (ensure canonical columns, reorder, trim whitespace,
parse dates, coerce Company/Position to string, drop duplicates) to a
table that is already its own normalized output yields an identical
table, for any date parser and any date renderer that prints dates
without surrounding whitespace (as pandas does). -/
theorem c6_clean_idempotent (pd : String → Option Int) (ds : Int → String)
    (hds : ∀ d, pyStrip (ds d) = ds d) (t : Table) :
    cleanCsvData pd ds (cleanCsvData pd ds t) = cleanCsvData pd ds t := by
  simp only [cleanCsvData]
  congr 1
  have hmap : (dropDups (t.rows.map (cleanRow pd ds t.cols))).map
      (cleanRow pd ds expectedColumns) =
      dropDups (t.rows.map (cleanRow pd ds t.cols)) := by
    have h : ∀ y ∈ dropDups (t.rows.map (cleanRow pd ds t.cols)),
        cleanRow pd ds expectedColumns y = id y := by
      intro y hy
      obtain ⟨r, -, rfl⟩ := List.mem_map.mp ((mem_dropDups_iff _ _).mp hy)
      exact cleanRow_idem pd ds hds t.cols r
    rw [List.map_congr_left h, List.map_id]
  rw [hmap, dropDups_idem]

/-- Fixture: a date parser that never parses. -/
def wParseDate : String → Option Int := fun _ => none

/-- Fixture: a date renderer with trimmed output. -/
def wShowDate : Int → String := fun _ => "1970-01-01 00:00:00"

/-- Fixture: a ragged raw table with duplicates, missing canonical
columns and unstripped cells. -/
def c6t : Table :=
  ⟨["Company", "Junk"],
   [[Cell.str " Acme ", Cell.na], [Cell.str " Acme ", Cell.na], [Cell.date 3, Cell.str "x"]]⟩

/-- Witness for C6 on a concrete raw table. -/
theorem c6_clean_idempotent_witness :
    cleanCsvData wParseDate wShowDate (cleanCsvData wParseDate wShowDate c6t) =
      cleanCsvData wParseDate wShowDate c6t :=
  c6_clean_idempotent wParseDate wShowDate
    (fun _ => (by decide :
      pyStrip "1970-01-01 00:00:00" = "1970-01-01 00:00:00")) c6t

/-! ## Claim C7 -/

/-- C7: an upload containing two fully identical contact rows yields an
output that contains exactly one instance of that row (in normalized
form). -/
theorem c7_duplicate_removed (pd : String → Option Int) (ds : Int → String)
    (t : Table) (r : List Cell) (l₁ l₂ l₃ : List (List Cell))
    (h : t.rows = l₁ ++ r :: l₂ ++ r :: l₃) :
    ((cleanCsvData pd ds t).rows).count (cleanRow pd ds t.cols r) = 1 := by
  have hmem : r ∈ t.rows := by
    rw [h]
    simp
  simp only [cleanCsvData]
  exact count_dropDups_eq_one (List.mem_map.mpr ⟨r, hmem, rfl⟩)

/-- Fixture: a table with two fully identical rows. -/
def c7t : Table := ⟨["Company"], [[Cell.str "A"], [Cell.str "A"]]⟩

/-- Witness for C7 on a concrete duplicated row. -/
theorem c7_duplicate_removed_witness :
    ((cleanCsvData wParseDate wShowDate c7t).rows).count
      (cleanRow wParseDate wShowDate c7t.cols [Cell.str "A"]) = 1 :=
  c7_duplicate_removed wParseDate wShowDate c7t [Cell.str "A"] [] [] [] rfl

/-! ## Helper lemmas about the heuristic column mapping -/

theorem find?_overwrite_ne (m : List (String × String)) (k v c : String) (h : k ≠ c) :
    (m.map (fun p => if p.1 = k then (k, v) else p)).find? (fun p => p.1 = c) =
      m.find? (fun p => p.1 = c) := by
  induction m with
  | nil => rfl
  | cons p m ih =>
    by_cases hp : p.1 = k
    · rw [List.map_cons, if_pos hp,
        List.find?_cons_of_neg _ (by simp [h]),
        List.find?_cons_of_neg _ (by simp [hp, h])]
      exact ih
    · rw [List.map_cons, if_neg hp]
      by_cases hc : p.1 = c
      · rw [List.find?_cons_of_pos _ (by simp [hc]), List.find?_cons_of_pos _ (by simp [hc])]
      · rw [List.find?_cons_of_neg _ (by simp [hc]), List.find?_cons_of_neg _ (by simp [hc])]
        exact ih

theorem find?_append_single_ne (m : List (String × String)) (k v c : String) (h : k ≠ c) :
    (m ++ [(k, v)]).find? (fun p => p.1 = c) = m.find? (fun p => p.1 = c) := by
  induction m with
  | nil =>
    rw [List.nil_append, List.find?_cons_of_neg _ (by simp [h])]
  | cons p m ih =>
    by_cases hc : p.1 = c
    · rw [List.cons_append, List.find?_cons_of_pos _ (by simp [hc]),
        List.find?_cons_of_pos _ (by simp [hc])]
    · rw [List.cons_append, List.find?_cons_of_neg _ (by simp [hc]),
        List.find?_cons_of_neg _ (by simp [hc])]
      exact ih

/-- Inserting under a different key leaves a key's lookup unchanged. -/
theorem find?_dinsert_ne (m : List (String × String)) (k v c : String) (h : k ≠ c) :
    (dinsert m k v).find? (fun p => p.1 = c) = m.find? (fun p => p.1 = c) := by
  unfold dinsert
  split
  · exact find?_overwrite_ne m k v c h
  · exact find?_append_single_ne m k v c h

theorem find?_overwrite_self (m : List (String × String)) (k v : String)
    (h : m.any (fun p => p.1 = k) = true) :
    (m.map (fun p => if p.1 = k then (k, v) else p)).find? (fun p => p.1 = k) =
      some (k, v) := by
  induction m with
  | nil => simp at h
  | cons p m ih =>
    by_cases hp : p.1 = k
    · rw [List.map_cons, if_pos hp, List.find?_cons_of_pos _ (by simp)]
    · rw [List.map_cons, if_neg hp, List.find?_cons_of_neg _ (by simp [hp])]
      refine ih ?_
      simpa [hp] using h

theorem find?_append_single_self (m : List (String × String)) (k v : String)
    (h : m.any (fun p => p.1 = k) = false) :
    (m ++ [(k, v)]).find? (fun p => p.1 = k) = some (k, v) := by
  induction m with
  | nil =>
    rw [List.nil_append, List.find?_cons_of_pos _ (by simp)]
  | cons p m ih =>
    rw [List.any_cons, Bool.or_eq_false_iff] at h
    rw [List.cons_append, List.find?_cons_of_neg _ (by simpa using h.1)]
    exact ih h.2

/-- Looking up the just-inserted key returns the new value. -/
theorem find?_dinsert_self (m : List (String × String)) (k v : String) :
    (dinsert m k v).find? (fun p => p.1 = k) = some (k, v) := by
  unfold dinsert
  split
  · next h => exact find?_overwrite_self m k v h
  · next h => exact find?_append_single_self m k v (by rw [Bool.eq_false_iff]; exact h)

/-- Every entry of `dinsert m k v` is `(k, v)` or an entry of `m`. -/
theorem mem_dinsert (m : List (String × String)) (k v : String) (e : String × String)
    (he : e ∈ dinsert m k v) : e = (k, v) ∨ e ∈ m := by
  unfold dinsert at he
  split at he
  · obtain ⟨p, hp, hpe⟩ := List.mem_map.mp he
    by_cases hpk : p.1 = k
    · left
      rw [← hpe, if_pos hpk]
    · right
      rw [← hpe, if_neg hpk]
      exact hp
  · rcases List.mem_append.mp he with h | h
    · right
      exact h
    · left
      simpa using h

theorem findIdx_append_false (l₁ l₂ : List String) (p : String → Bool)
    (h : ∀ x ∈ l₁, p x = false) :
    (l₁ ++ l₂).findIdx p = l₁.length + l₂.findIdx p := by
  induction l₁ with
  | nil => simp
  | cons a l ih =>
    rw [List.cons_append, List.findIdx_cons, h a (List.mem_cons_self _ _)]
    rw [ih (fun x hx => h x (List.mem_cons_of_mem _ hx))]
    simp [Nat.succ_add]

theorem getD_append_offset (r pads : List Cell) (j : Nat) (d : Cell) :
    (r ++ pads).getD (r.length + j) d = pads.getD j d := by
  induction r with
  | nil => simp
  | cons a r ih =>
    have hidx : (a :: r).length + j = (r.length + j) + 1 := by
      simp [Nat.succ_add]
    rw [List.cons_append, hidx, List.getD_cons_succ]
    exact ih

theorem getD_const_str (l : List String) (j : Nat) :
    ((l.map (fun _ => Cell.str "")).getD j (Cell.str "")) = Cell.str "" := by
  induction l generalizing j with
  | nil => simp
  | cons a l ih =>
    cases j with
    | zero => rfl
    | succ j =>
      rw [List.map_cons, List.getD_cons_succ]
      exact ih j

/-- A canonical column label absent from the (renamed) raw columns is
read from the padding, so it holds the empty string in every row of
the right width. -/
theorem cellAt_of_not_mem (cols : List String) (r : List Cell) (c : String)
    (hc : c ∉ cols) (hlen : r.length = cols.length) :
    cellAt cols r c = Cell.str "" := by
  unfold cellAt padRow ensuredCols
  have hall : ∀ x ∈ cols, (decide (x = c)) = false := by
    intro x hx
    simp only [decide_eq_false_iff_not]
    exact fun hxy => hc (hxy ▸ hx)
  rw [findIdx_append_false cols (missingCols cols) _ hall, ← hlen,
    getD_append_offset r ((missingCols cols).map (fun _ => Cell.str "")) _ _]
  exact getD_const_str (missingCols cols) _

/-- With exactly one name column, the First-Name and Last-Name dict
entries collide on that column's key, and the later "Last Name" entry
wins, provided the company/position/url keys differ from it. -/
theorem columnMapping_single (cols : List String) (c : String)
    (hn : nameCols cols = [c])
    (hck : (companyCols cols).headD "" ≠ c)
    (hpk : (positionCols cols).headD "" ≠ c)
    (huk : urlCols cols ≠ [] → (urlCols cols).headD "" ≠ c) :
    (columnMapping cols).find? (fun p => p.1 = c) = some (c, "Last Name") := by
  have h1 : (nameCols cols).headD "" = c := by rw [hn]; rfl
  have h2 : (nameCols cols).getLastD "" = c := by rw [hn]; rfl
  have hm2 : dinsert (dinsert [] c "First Name") c "Last Name" = [(c, "Last Name")] := by
    simp [dinsert]
  have hfind2 : (dinsert (dinsert [] c "First Name") c "Last Name").find?
      (fun p => p.1 = c) = some (c, "Last Name") := by
    rw [hm2, List.find?_cons_of_pos _ (by simp)]
  unfold columnMapping
  rw [h1, h2]
  by_cases hu : urlCols cols ≠ []
  · rw [if_pos hu, find?_dinsert_ne _ _ _ _ (huk hu), find?_dinsert_ne _ _ _ _ hpk,
      find?_dinsert_ne _ _ _ _ hck]
    exact hfind2
  · rw [if_neg hu, find?_dinsert_ne _ _ _ _ hpk, find?_dinsert_ne _ _ _ _ hck]
    exact hfind2

/-- With exactly one name column, every value of the column-mapping
dict is one of the four non-First-Name targets. -/
theorem columnMapping_values (cols : List String) (c : String)
    (hn : nameCols cols = [c]) (e : String × String) (he : e ∈ columnMapping cols) :
    e.2 = "Last Name" ∨ e.2 = "Company" ∨ e.2 = "Position" ∨ e.2 = "URL" := by
  have h1 : (nameCols cols).headD "" = c := by rw [hn]; rfl
  have h2 : (nameCols cols).getLastD "" = c := by rw [hn]; rfl
  have hm2 : dinsert (dinsert [] c "First Name") c "Last Name" = [(c, "Last Name")] := by
    simp [dinsert]
  unfold columnMapping at he
  rw [h1, h2, hm2] at he
  split at he
  · rcases mem_dinsert _ _ _ _ he with h | h
    · right; right; right
      rw [h]
    · rcases mem_dinsert _ _ _ _ h with h' | h'
      · right; right; left
        rw [h']
      · rcases mem_dinsert _ _ _ _ h' with h'' | h''
        · right; left
          rw [h'']
        · left
          rw [List.mem_singleton.mp h'']
  · rcases mem_dinsert _ _ _ _ he with h | h
    · right; right; left
      rw [h]
    · rcases mem_dinsert _ _ _ _ h with h' | h'
      · right; left
        rw [h']
      · left
        rw [List.mem_singleton.mp h']

/-- Under the single-name-column hypotheses, no column of the table is
renamed to "First Name" (and none is already called that). -/
theorem renameCol_ne_firstName (cols : List String) (c x : String)
    (hn : nameCols cols = [c])
    (hck : (companyCols cols).headD "" ≠ c)
    (hpk : (positionCols cols).headD "" ≠ c)
    (huk : urlCols cols ≠ [] → (urlCols cols).headD "" ≠ c)
    (hx : x ∈ cols) :
    renameCol (columnMapping cols) x ≠ "First Name" := by
  cases hfind : (columnMapping cols).find? (fun p => p.1 = x) with
  | some p =>
    have hre : renameCol (columnMapping cols) x = p.2 := by
      unfold renameCol
      rw [hfind]
    have hp := List.mem_of_find?_eq_some hfind
    have hv := columnMapping_values cols c hn p hp
    rw [hre]
    intro hcontra
    rw [hcontra] at hv
    rcases hv with h | h | h | h <;> exact absurd h (by decide)
  | none =>
    have hre : renameCol (columnMapping cols) x = x := by
      unfold renameCol
      rw [hfind]
    rw [hre]
    intro hcontra
    have hxn : x ∈ nameCols cols :=
      List.mem_filter.mpr ⟨hx, by rw [hcontra]; decide⟩
    rw [hn, List.mem_singleton] at hxn
    rw [hxn, columnMapping_single cols c hn hck hpk huk] at hfind
    exact absurd hfind (by simp)

/-! ## Claim C9 -/

/-- Counterexample to C9 as stated: the table whose columns are
"Company Name" and "Position" has exactly one column containing
"name" (case-insensitively) alongside matched company and position
columns, yet that single column is renamed to "Company" — the later
`company_cols[0]: "Company"` entry of the mapping dict overwrites the
"Last Name" entry on the same key — not to "Last Name". -/
theorem c9_counterexample :
    nameCols ["Company Name", "Position"] = ["Company Name"] ∧
      companyCols ["Company Name", "Position"] ≠ [] ∧
      positionCols ["Company Name", "Position"] ≠ [] ∧
      renameCol (columnMapping ["Company Name", "Position"]) "Company Name" = "Company" ∧
      ("Company" : String) ≠ "Last Name" := by
  decide

/-- C9 (amended): in the heuristic column-mapping strategy, for every
input table with exactly one column name containing "name"
(case-insensitive) alongside matched company and position columns,
that single column is renamed to "Last Name" (the First-Name and
Last-Name dict entries collide on the same key and the Last-Name
assignment wins) — provided the name column is not itself the first
matched company, position, or url column — and consequently the
returned table's "First Name" column is the empty string in every
row. -/
theorem c9_single_name_col (pd : String → Option Int) (ds : Int → String)
    (t : Table) (c : String)
    (hn : nameCols t.cols = [c])
    (hc : companyCols t.cols ≠ []) (hp : positionCols t.cols ≠ [])
    (hck : (companyCols t.cols).headD "" ≠ c)
    (hpk : (positionCols t.cols).headD "" ≠ c)
    (huk : urlCols t.cols ≠ [] → (urlCols t.cols).headD "" ≠ c)
    (hrect : ∀ r ∈ t.rows, r.length = t.cols.length) :
    renameCol (columnMapping t.cols) c = "Last Name" ∧
      ∃ t', heuristicRename pd ds t = some t' ∧
        ∀ r ∈ t'.rows, r.getD 0 Cell.na = Cell.str "" := by
  have hrename : renameCol (columnMapping t.cols) c = "Last Name" := by
    unfold renameCol
    rw [columnMapping_single t.cols c hn hck hpk huk]
  refine ⟨hrename, ?_⟩
  have hguard : nameCols t.cols ≠ [] ∧ companyCols t.cols ≠ [] ∧ positionCols t.cols ≠ [] :=
    ⟨by rw [hn]; simp, hc, hp⟩
  refine ⟨cleanCsvData pd ds ⟨t.cols.map (renameCol (columnMapping t.cols)), t.rows⟩,
    by unfold heuristicRename; rw [if_pos hguard], ?_⟩
  have hFN : "First Name" ∉ t.cols.map (renameCol (columnMapping t.cols)) := by
    intro hmem
    obtain ⟨x, hx, hxe⟩ := List.mem_map.mp hmem
    exact renameCol_ne_firstName t.cols c x hn hck hpk huk hx hxe
  intro r' hr'
  simp only [cleanCsvData] at hr'
  obtain ⟨r, hr, rfl⟩ := List.mem_map.mp ((mem_dropDups_iff _ _).mp hr')
  rw [cleanRow_eq]
  show stripCell (cellAt (t.cols.map (renameCol (columnMapping t.cols))) r "First Name") =
    Cell.str ""
  rw [cellAt_of_not_mem _ _ _ hFN (by rw [List.length_map]; exact hrect r hr)]
  decide

/-- Fixture: a table whose single name column is distinct from the
matched company and position columns. -/
def c9t : Table :=
  ⟨["Full Name", "Company", "Position"], [[Cell.str "Jane", Cell.str "Acme", Cell.str "Dev"]]⟩

/-- Witness for the amended C9 on a concrete table. -/
theorem c9_single_name_col_witness :
    renameCol (columnMapping c9t.cols) "Full Name" = "Last Name" ∧
      ∃ t', heuristicRename wParseDate wShowDate c9t = some t' ∧
        ∀ r ∈ t'.rows, r.getD 0 Cell.na = Cell.str "" :=
  c9_single_name_col wParseDate wShowDate c9t "Full Name" (by decide) (by decide) (by decide)
    (by decide) (by decide) (by decide) (by decide)

end Sixdegrees
